import Mathlib

/-!
Verification of the email-scheduler delivery pipeline.

Shallow embedding of the backend core of the Email-Scheduler repository:
the batch planner (`calculateScheduledTimes`), the rate limiter
(`checkRateLimit`), the scheduling coordinator (the enqueue-failure
recovery path of `scheduleEmails`), and the worker (`processEmailJob`),
together with a small trace semantics for the message state machine.

Wall-clock instants are modelled as integers (milliseconds since the
epoch, as in JavaScript `Date.getTime()`).  The JavaScript code reads
and writes calendar components in local time (`setMinutes(0,0,0)`,
`setHours(h+1)`, ...); a fixed local UTC offset `off` (in milliseconds)
is threaded explicitly, so that zeroing the sub-hour components of an
instant `t` yields `t - (t + off) % 3600000`.
-/

namespace EmailScheduler

/-- Milliseconds in one hour. -/
def hourMs : Int := 3600000

/-- Start of the local clock hour containing `t`: the JavaScript idiom
`d.setMinutes(0, 0, 0)` (also used via the `Date(y, m, d, h, 0, 0, 0)`
constructor in `getCurrentHourStart`), for a zone of fixed offset `off`
milliseconds east of UTC. -/
def localHourStart (off t : Int) : Int := t - (t + off) % hourMs

/-- An instant that is exactly on a local clock-hour boundary. -/
def Aligned (off w : Int) : Prop := (w + off) % hourMs = 0

instance (off w : Int) : Decidable (Aligned off w) := by
  unfold Aligned; infer_instance

theorem hourMs_pos : (0 : Int) < hourMs := by decide

theorem localHourStart_le (off t : Int) : localHourStart off t ≤ t := by
  have h := Int.emod_nonneg (t + off) (by decide : hourMs ≠ 0)
  unfold localHourStart; omega

theorem lt_localHourStart_add (off t : Int) : t < localHourStart off t + hourMs := by
  have h := Int.emod_lt_of_pos (t + off) hourMs_pos
  unfold localHourStart; omega

theorem localHourStart_eq_mul (off t : Int) :
    localHourStart off t = hourMs * ((t + off) / hourMs) - off := by
  unfold localHourStart
  rw [Int.emod_def]
  ring

theorem localHourStart_mono (off : Int) {s t : Int} (h : s ≤ t) :
    localHourStart off s ≤ localHourStart off t := by
  rw [localHourStart_eq_mul, localHourStart_eq_mul]
  have h1 : (s + off) / hourMs ≤ (t + off) / hourMs :=
    Int.ediv_le_ediv hourMs_pos (by omega)
  have h2 := Int.mul_le_mul_of_nonneg_left h1 (by decide : (0 : Int) ≤ hourMs)
  omega

theorem localHourStart_aligned (off t : Int) : Aligned off (localHourStart off t) := by
  unfold Aligned localHourStart hourMs
  omega

theorem aligned_localHourStart (off w : Int) (h : Aligned off w) :
    localHourStart off w = w := by
  unfold Aligned at h
  unfold localHourStart
  omega

theorem aligned_add_hourMs (off w : Int) (h : Aligned off w) :
    Aligned off (w + hourMs) := by
  unfold Aligned at h ⊢
  unfold hourMs at h ⊢
  omega

theorem localHourStart_eq_iff (off t w : Int) (hw : Aligned off w) :
    localHourStart off t = w ↔ (w ≤ t ∧ t < w + hourMs) := by
  constructor
  · intro h
    exact ⟨h ▸ localHourStart_le off t, h ▸ lt_localHourStart_add off t⟩
  · intro ⟨h1, h2⟩
    unfold Aligned hourMs at hw
    unfold hourMs at h2
    unfold localHourStart hourMs
    omega

/-! ## Batch planner

Embedding of `calculateScheduledTimes` from
`src/backend/src/services/ratelimit.service.ts`.  The loop walks a
cursor `currentTime` with a per-clock-hour counter
`emailsInCurrentHour` and the hour anchor `currentHourStart`.  At the
top of each iteration, if the counter has reached `hourlyLimit`, the
cursor jumps to the start of the next hour and the counter resets; the
cursor is then emitted, the counter incremented, and the cursor
advanced by the inter-message delay; if the advance crosses into a new
clock hour, the anchor moves and the counter resets. -/

/-- One planner loop: `n` slots remain; state is
(cursor, counter, hour anchor). `d` is the delay in milliseconds. -/
def planLoop (off d : Int) (cap : Nat) : Nat → Int → Nat → Int → List Int
  | 0, _, _, _ => []
  | n + 1, t0, c0, h0 =>
    let t := if cap ≤ c0 then h0 + hourMs else t0
    let c := if cap ≤ c0 then 0 else c0
    let h := if cap ≤ c0 then localHourStart off (h0 + hourMs) else h0
    let next := t + d
    let nh := localHourStart off next
    t :: (if h < nh then planLoop off d cap n next 0 nh
          else planLoop off d cap n next (c + 1) h)

/-- Embedding of `calculateScheduledTimes(count, startTime,
delayBetweenEmails, hourlyLimit, senderId?)`.  The delay is given in
seconds (`currentTime.getTime() + delayBetweenEmails * 1000`).  The
`senderId` argument is accepted, as in the source signature, and is
never consulted by the body. -/
def calculateScheduledTimes (off : Int) (count : Nat) (startTime : Int)
    (delayBetweenEmails : Nat) (hourlyLimit : Nat) (_senderId : Option String) : List Int :=
  planLoop off (delayBetweenEmails * 1000) hourlyLimit count startTime 0
    (localHourStart off startTime)

/-! ### Planner lemmas -/

/-- Unfolding of the planner loop when the hourly counter is below the cap. -/
theorem planLoop_succ_emit {off d : Int} {cap : Nat} {n : Nat} {t0 h0 : Int} {c0 : Nat}
    (hlt : c0 < cap) :
    planLoop off d cap (n + 1) t0 c0 h0 =
      t0 :: (if h0 < localHourStart off (t0 + d)
             then planLoop off d cap n (t0 + d) 0 (localHourStart off (t0 + d))
             else planLoop off d cap n (t0 + d) (c0 + 1) h0) := by
  simp only [planLoop, if_neg (Nat.not_le.mpr hlt)]

/-- When the counter has reached the cap, the iteration behaves as if
restarted at the top of the next hour with a zero counter. -/
theorem planLoop_cap_eq {off d : Int} {cap : Nat} {n : Nat} {t0 h0 : Int} {c0 : Nat}
    (hcap : 1 ≤ cap) (hge : cap ≤ c0) (hal : Aligned off h0) :
    planLoop off d cap (n + 1) t0 c0 h0 =
      planLoop off d cap (n + 1) (h0 + hourMs) 0 (h0 + hourMs) := by
  have h1 : localHourStart off (h0 + hourMs) = h0 + hourMs :=
    aligned_localHourStart _ _ (aligned_add_hourMs _ _ hal)
  simp only [planLoop, if_pos hge, if_neg (by omega : ¬ cap ≤ 0), h1]

theorem planLoop_length (off d : Int) (cap : Nat) :
    ∀ n t0 c0 h0, (planLoop off d cap n t0 c0 h0).length = n := by
  intro n
  induction n with
  | zero => intro t0 c0 h0; simp [planLoop]
  | succ n ih =>
    intro t0 c0 h0
    simp only [planLoop]
    split
    all_goals split <;> simp [ih]

theorem planLoop_lb {off d : Int} {cap : Nat} (hcap : 1 ≤ cap) (hd : 0 ≤ d) :
    ∀ n t0 c0 h0, h0 = localHourStart off t0 →
      ∀ x ∈ planLoop off d cap n t0 c0 h0, t0 ≤ x := by
  intro n
  induction n with
  | zero => intro t0 c0 h0 _ x hx; simp [planLoop] at hx
  | succ n ih =>
    have emit : ∀ t0 c0 h0, c0 < cap → h0 = localHourStart off t0 →
        ∀ x ∈ planLoop off d cap (n + 1) t0 c0 h0, t0 ≤ x := by
      intro t0 c0 h0 hlt hinv x hx
      rw [planLoop_succ_emit hlt] at hx
      rcases List.mem_cons.mp hx with rfl | hx
      · exact le_refl x
      · split at hx

        · have := ih (t0 + d) 0 _ rfl x hx
          omega
        · next hcr =>
          have hmono : h0 ≤ localHourStart off (t0 + d) := by
            rw [hinv]; exact localHourStart_mono off (by omega)
          have hinv' : h0 = localHourStart off (t0 + d) :=
            le_antisymm hmono (not_lt.mp hcr)
          have := ih (t0 + d) (c0 + 1) h0 hinv' x hx
          omega
    intro t0 c0 h0 hinv x hx
    rcases Nat.lt_or_ge c0 cap with hlt | hge
    · exact emit t0 c0 h0 hlt hinv x hx
    · have hal : Aligned off h0 := by rw [hinv]; exact localHourStart_aligned off t0
      rw [planLoop_cap_eq hcap hge hal] at hx
      have hal' : Aligned off (h0 + hourMs) := aligned_add_hourMs _ _ hal
      have h1 := emit (h0 + hourMs) 0 (h0 + hourMs) hcap
        ((aligned_localHourStart _ _ hal').symm) x hx
      have h2 : t0 < h0 + hourMs := by rw [hinv]; exact lt_localHourStart_add off t0
      omega

theorem planLoop_chain_le {off d : Int} {cap : Nat} (hcap : 1 ≤ cap) (hd : 0 ≤ d) :
    ∀ n t0 c0 h0, h0 = localHourStart off t0 →
      List.Chain' (· ≤ ·) (planLoop off d cap n t0 c0 h0) := by
  intro n
  induction n with
  | zero => intro t0 c0 h0 _; simp [planLoop]
  | succ n ih =>
    have emit : ∀ t0 c0 h0, c0 < cap → h0 = localHourStart off t0 →
        List.Chain' (· ≤ ·) (planLoop off d cap (n + 1) t0 c0 h0) := by
      intro t0 c0 h0 hlt hinv
      rw [planLoop_succ_emit hlt]
      rw [List.chain'_cons']
      constructor
      · intro y hy
        have hmem := List.mem_of_mem_head? hy
        split at hmem
        · have := planLoop_lb hcap hd n (t0 + d) 0 _ rfl y hmem
          omega
        · next hcr =>
          have hmono : h0 ≤ localHourStart off (t0 + d) := by
            rw [hinv]; exact localHourStart_mono off (by omega)
          have hinv' : h0 = localHourStart off (t0 + d) :=
            le_antisymm hmono (not_lt.mp hcr)
          have := planLoop_lb hcap hd n (t0 + d) (c0 + 1) h0 hinv' y hmem
          omega
      · split
        · exact ih (t0 + d) 0 _ rfl
        · next hcr =>
          have hmono : h0 ≤ localHourStart off (t0 + d) := by
            rw [hinv]; exact localHourStart_mono off (by omega)
          exact ih (t0 + d) (c0 + 1) h0 (le_antisymm hmono (not_lt.mp hcr))
    intro t0 c0 h0 hinv
    rcases Nat.lt_or_ge c0 cap with hlt | hge
    · exact emit t0 c0 h0 hlt hinv
    · have hal : Aligned off h0 := by rw [hinv]; exact localHourStart_aligned off t0
      rw [planLoop_cap_eq hcap hge hal]
      have hal' : Aligned off (h0 + hourMs) := aligned_add_hourMs _ _ hal
      exact emit (h0 + hourMs) 0 (h0 + hourMs) hcap
        ((aligned_localHourStart _ _ hal').symm)

/-- Elements produced with the hour anchor strictly below a window `w`
do not fall into hours at or before the anchor; in particular a list
all of whose elements have hour above `w` contributes no count. -/
theorem countP_window_zero {off w : Int} {l : List Int}
    (hall : ∀ x ∈ l, localHourStart off x ≠ w) :
    l.countP (fun x => decide (localHourStart off x = w)) = 0 := by
  apply List.countP_eq_zero.mpr
  intro a ha
  simpa using hall a ha

theorem planLoop_cap_window {off d : Int} {cap : Nat} (hcap : 1 ≤ cap) (hd : 0 ≤ d)
    (w : Int) :
    ∀ n t0 c0 h0, h0 = localHourStart off t0 → c0 ≤ cap →
      (planLoop off d cap n t0 c0 h0).countP (fun x => decide (localHourStart off x = w))
        + (if w = h0 then c0 else 0) ≤ cap := by
  intro n
  induction n with
  | zero =>
    intro t0 c0 h0 _ hc
    simp only [planLoop, List.countP_nil]
    split <;> omega
  | succ n ih =>
    have emit : ∀ t0 c0 h0, c0 < cap → h0 = localHourStart off t0 →
        (planLoop off d cap (n + 1) t0 c0 h0).countP
            (fun x => decide (localHourStart off x = w))
          + (if w = h0 then c0 else 0) ≤ cap := by
      intro t0 c0 h0 hlt hinv
      rw [planLoop_succ_emit hlt, List.countP_cons]
      have hh : localHourStart off t0 = h0 := hinv.symm
      simp only [decide_eq_true_eq]
      split
      · next hcr =>
        -- the advance crossed into a new hour: the counter for hour h0 is final
        have hz : (planLoop off d cap n (t0 + d) 0
              (localHourStart off (t0 + d))).countP
              (fun x => decide (localHourStart off x = w)) ≤ cap := by
          have := ih (t0 + d) 0 _ rfl (by omega)
          split at this <;> omega
        by_cases hw : w = h0
        · have hzero : (planLoop off d cap n (t0 + d) 0
                (localHourStart off (t0 + d))).countP
                (fun x => decide (localHourStart off x = w)) = 0 := by
            apply countP_window_zero
            intro x hx
            have hxlb := planLoop_lb hcap hd n (t0 + d) 0 _ rfl x hx
            have : localHourStart off (t0 + d) ≤ localHourStart off x :=
              localHourStart_mono off hxlb
            omega
          rw [if_pos (show localHourStart off t0 = w by rw [hh, hw])]
          rw [if_pos hw, hzero]
          omega
        · rw [if_neg (show ¬ localHourStart off t0 = w by
            rw [hh]; exact fun h => hw h.symm)]
          rw [if_neg hw]
          omega
      · next hcr =>
        have hmono : h0 ≤ localHourStart off (t0 + d) := by
          rw [hinv]; exact localHourStart_mono off (by omega)
        have hinv' : h0 = localHourStart off (t0 + d) :=
          le_antisymm hmono (not_lt.mp hcr)
        have hrec := ih (t0 + d) (c0 + 1) h0 hinv' (by omega)
        by_cases hw : w = h0
        · rw [if_pos (show localHourStart off t0 = w by rw [hh, hw])]
          rw [if_pos hw]
          rw [if_pos hw] at hrec
          omega
        · rw [if_neg (show ¬ localHourStart off t0 = w by
            rw [hh]; exact fun h => hw h.symm)]
          rw [if_neg hw]
          rw [if_neg hw] at hrec
          omega
    intro t0 c0 h0 hinv hc
    rcases Nat.lt_or_ge c0 cap with hlt | hge
    · exact emit t0 c0 h0 hlt hinv
    · have hal : Aligned off h0 := by rw [hinv]; exact localHourStart_aligned off t0
      rw [planLoop_cap_eq hcap hge hal]
      have hal' : Aligned off (h0 + hourMs) := aligned_add_hourMs _ _ hal
      have h1 := emit (h0 + hourMs) 0 (h0 + hourMs) hcap
        ((aligned_localHourStart _ _ hal').symm)
      rw [ite_self, Nat.add_zero] at h1
      by_cases hw : w = h0
      · have hzero : (planLoop off d cap (n + 1) (h0 + hourMs) 0
              (h0 + hourMs)).countP
              (fun x => decide (localHourStart off x = w)) = 0 := by
          apply countP_window_zero
          intro x hx
          have hxlb := planLoop_lb hcap hd (n + 1) (h0 + hourMs) 0 (h0 + hourMs)
            ((aligned_localHourStart _ _ hal').symm) x hx
          have h2 : (h0 + hourMs : Int) ≤ localHourStart off x := by
            have := localHourStart_mono off hxlb
            rwa [aligned_localHourStart _ _ hal'] at this
          unfold hourMs at h2
          omega
        rw [hzero, if_pos hw]
        omega
      · rw [if_neg hw]
        omega

/-- Relation between two consecutive planned instants: if they share a
local clock hour they differ by exactly the configured delay, and in
general the later one is either the earlier plus the delay or the start
of the hour following the earlier one (the cap-overflow jump). -/
def pairStep (off d a b : Int) : Prop :=
  (localHourStart off b = localHourStart off a → b = a + d) ∧
  (b = a + d ∨ b = localHourStart off a + hourMs)

theorem planLoop_chain_pair {off d : Int} {cap : Nat} (hcap : 1 ≤ cap) (hd : 0 ≤ d) :
    ∀ n prev t0 c0 h0, t0 = prev + d → h0 = localHourStart off t0 →
      (1 ≤ c0 → localHourStart off prev = h0) →
      List.Chain' (pairStep off d) (prev :: planLoop off d cap n t0 c0 h0) := by
  intro n
  induction n with
  | zero => intro prev t0 c0 h0 _ _ _; simp [planLoop]
  | succ n ih =>
    have emit : ∀ prev t0 c0 h0, c0 < cap → t0 = prev + d →
        h0 = localHourStart off t0 → (1 ≤ c0 → localHourStart off prev = h0) →
        List.Chain' (pairStep off d) (prev :: planLoop off d cap (n + 1) t0 c0 h0) := by
      intro prev t0 c0 h0 hlt hstep hinv hlink
      rw [planLoop_succ_emit hlt, List.chain'_cons]
      constructor
      · exact ⟨fun _ => hstep, Or.inl hstep⟩
      · split
        · next hcr => exact ih t0 (t0 + d) 0 _ rfl rfl (by omega)
        · next hcr =>
          have hmono : h0 ≤ localHourStart off (t0 + d) := by
            rw [hinv]; exact localHourStart_mono off (by omega)
          have hinv' : h0 = localHourStart off (t0 + d) :=
            le_antisymm hmono (not_lt.mp hcr)
          exact ih t0 (t0 + d) (c0 + 1) h0 rfl hinv' (fun _ => hinv.symm)
    intro prev t0 c0 h0 hstep hinv hlink
    rcases Nat.lt_or_ge c0 cap with hlt | hge
    · exact emit prev t0 c0 h0 hlt hstep hinv hlink
    · have hc1 : (1 : Nat) ≤ c0 := le_trans hcap hge
      have hprev : localHourStart off prev = h0 := hlink hc1
      have hal : Aligned off h0 := by rw [hinv]; exact localHourStart_aligned off t0
      have hal' : Aligned off (h0 + hourMs) := aligned_add_hourMs _ _ hal
      have halq : localHourStart off (h0 + hourMs) = h0 + hourMs :=
        aligned_localHourStart _ _ hal'
      rw [planLoop_cap_eq hcap hge hal]
      rw [planLoop_succ_emit hcap, List.chain'_cons]
      constructor
      · constructor
        · intro hsame
          rw [halq, hprev] at hsame
          exact absurd hsame (by unfold hourMs; omega)
        · right
          rw [hprev]
      · split
        · next hcr => exact ih (h0 + hourMs) (h0 + hourMs + d) 0 _ rfl rfl (by omega)
        · next hcr =>
          have hmono : localHourStart off (h0 + hourMs) ≤
              localHourStart off (h0 + hourMs + d) := localHourStart_mono off (by omega)
          rw [halq] at hmono
          have hinv' : (h0 + hourMs : Int) = localHourStart off (h0 + hourMs + d) :=
            le_antisymm hmono (not_lt.mp hcr)
          exact ih (h0 + hourMs) (h0 + hourMs + d) 1 (h0 + hourMs) rfl hinv'
            (fun _ => halq)

/-! ## Rate limiter

Embedding of `checkRateLimit` from
`src/backend/src/services/ratelimit.service.ts` (Redis fast path).  The
Redis counter reads are inputs (`globalCount`, `senderCount`); the
configured limits are `maxGlobal` (`config.rateLimit.maxEmailsPerHour`)
and `maxPerSender` (`config.rateLimit.maxEmailsPerHourPerSender`).
`getNextHourStart` in the source builds the start of the current hour
from local calendar components and adds one hour. -/

structure RateLimitCheck where
  allowed : Bool
  remaining : Nat
  resetTime : Int
  nextAvailableSlot : Int
  deriving DecidableEq

/-- Source helper `getCurrentHourStart` (local calendar components). -/
def getCurrentHourStart (off now : Int) : Int := localHourStart off now

/-- Source helper `getNextHourStart`. -/
def getNextHourStart (off now : Int) : Int := getCurrentHourStart off now + hourMs

/-- Start of the UTC hour containing `t` (what the spec calls the UTC
hour bucket; also the bucket used by the Redis key format). -/
def utcHourStart (t : Int) : Int := t - t % hourMs

/-- Embedding of `checkRateLimit(senderId?)`.  `Math.max(0, limit -
count)` on numbers is truncated subtraction on naturals here, and with
no sender id the sender term defaults to `maxGlobal`. -/
def checkRateLimit (off now : Int) (maxGlobal maxPerSender : Nat)
    (senderId : Option String) (globalCount senderCount : Nat) : RateLimitCheck :=
  let globalRemaining := maxGlobal - globalCount
  let senderRemaining := match senderId with
    | some _ => maxPerSender - senderCount
    | none => maxGlobal
  let remaining := min globalRemaining senderRemaining
  { allowed := decide (0 < remaining)
    remaining := remaining
    resetTime := getNextHourStart off now
    nextAvailableSlot := if 0 < remaining then now else getNextHourStart off now }

/-! ## Durable message records

Projection of the prisma `Email` model onto the fields the pipeline
reads and writes (schema defaults: `status SCHEDULED`, `retry_count 0`,
`max_retries 3`). -/

inductive Status
  | SCHEDULED
  | PROCESSING
  | SENT
  | FAILED
  | RATE_LIMITED
  deriving DecidableEq

structure Email where
  recipientEmail : String
  status : Status
  retryCount : Nat
  maxRetries : Nat
  errorMessage : Option String
  scheduledAt : Int
  sentAt : Option Int
  messageId : Option String
  jobId : Option String
  deriving DecidableEq

/-- Message row as created by `scheduleEmails` (controller): status
SCHEDULED, schema defaults for the retry fields. -/
def mkScheduledEmail (recipient : String) (t : Int) : Email :=
  { recipientEmail := recipient
    status := .SCHEDULED
    retryCount := 0
    maxRetries := 3
    errorMessage := none
    scheduledAt := t
    sentAt := none
    messageId := none
    jobId := none }

/-- Deterministic queue job id, from `generateJobId` in the queue module. -/
def generateJobId (emailId : String) (attemptNumber : Nat) : String :=
  "email-" ++ emailId ++ "-attempt-" ++ toString attemptNumber

/-! ## Scheduling coordinator

Embedding of the persist-then-enqueue tail of `scheduleEmails`
(`src/backend/src/controllers/email.controller.ts`).  Message rows are
created with status SCHEDULED; then the bulk enqueue either succeeds,
returning job ids that are linked back onto the rows, or throws, in
which case `updateMany` marks the whole batch FAILED with the thrown
message (or a fixed fallback when the thrown value is not an `Error`)
and the error is rethrown to the caller. -/

/-- Fallback text used by the controller when the enqueue failure is
not an `Error` instance. -/
def defaultQueueErrorMessage : String := "Failed to add to queue (System Error)"

/-- Outcome of `addEmailJobs`: either the list of created job ids, or a
thrown failure carrying a message when the thrown value is an `Error`. -/
inductive EnqueueOutcome
  | ok (jobIds : List String)
  | failed (err : Option String)

/-- Recovery write of `scheduleEmails` on enqueue failure:
`updateMany({where: {batchId}, data: {status: FAILED, errorMessage}})`. -/
def markBatchFailed (err : Option String) (batch : List Email) : List Email :=
  batch.map fun e =>
    { e with status := .FAILED, errorMessage := some (err.getD defaultQueueErrorMessage) }

/-- Link the returned queue job ids back onto the rows (success path). -/
def linkJobIds (emails : List Email) (ids : List String) : List Email :=
  List.zipWith (fun e id => { e with jobId := some id }) emails ids

/-- Persist-and-enqueue step of `scheduleEmails`: returns the final
batch rows and the error surfaced to the caller, if any. -/
def scheduleBatchStep (recipients : List String) (times : List Int)
    (enq : EnqueueOutcome) : List Email × Option String :=
  let emails := (recipients.zip times).map fun rt => mkScheduledEmail rt.1 rt.2
  match enq with
  | .ok ids => (linkJobIds emails ids, none)
  | .failed err => (markBatchFailed err emails, some (err.getD defaultQueueErrorMessage))

/-! ## Worker

Embedding of `processEmailJob` from
`src/backend/src/workers/email.worker.ts`.  The rate-limit decision and
the transport result are oracle inputs; the durable row is the `db`
argument.

Control flow of the source, mirrored here:
- `prisma.email.update` to PROCESSING; on a missing row this update
  rejects with P2025 ("Record to update not found"), the catch block
  re-reads the row (`null`), computes `retryCount = 0 + 1` and then
  attempts another update of the missing row, which rejects again, so
  the handler itself rejects and BullMQ records a failed attempt;
- rate-limit denial updates the row to RATE_LIMITED, enqueues a fresh
  job with `attemptNumber + 1` (`rescheduleJob`) and returns a
  completed result with `success: false`;
- transport success updates the row to SENT and returns a completed
  result with `success: true`;
- transport failure is caught: `retryCount + 1` is compared with
  `maxRetries` (`email.maxRetries || config.worker.maxRetries`, so a
  zero field falls back to the config value) and the row is updated to
  FAILED or back to SCHEDULED; the handler then RETURNS a completed
  result with `success: false` instead of rethrowing. -/

/-- Result of `sendEmail`: the service catches transport errors and
returns a success flag with an error string. -/
inductive SendResult
  | ok (messageId : String) (previewUrl : Option String)
  | failed (err : String)
  deriving DecidableEq

/-- How the attempt ends from the point of view of the queue: a
returned result marks the job completed; a rejection marks the attempt
failed, to be retried by the queue with exponential backoff. -/
inductive QueueAck
  | completed (success : Bool)
  | errored (message : String)
  deriving DecidableEq

structure JobOutcome where
  ack : QueueAck
  transportCalled : Bool
  rescheduledAttempt : Option Nat
  deriving DecidableEq

/-- Error text of the worker `throw new Error(result.error || ...)`. -/
def sendFailureMessage (err : String) : String :=
  if err = "" then "Unknown email sending error" else err

/-- Embedding of `processEmailJob`. -/
def processEmailJob (defaultMaxRetries : Nat) (now : Int) (emailId : String)
    (db : Option Email) (attempt : Nat) (rateAllowed : Bool) (send : SendResult) :
    Option Email × JobOutcome :=
  match db with
  | none =>
    -- both catch-block writes reject on the missing row: the handler rejects
    (none,
     { ack := .errored "Record to update not found"
       transportCalled := false
       rescheduledAttempt := none })
  | some e =>
    let e1 : Email := { e with status := .PROCESSING,
                               jobId := some (generateJobId emailId attempt) }
    if rateAllowed = false then
      (some { e1 with status := .RATE_LIMITED },
       { ack := .completed false
         transportCalled := false
         rescheduledAttempt := some (attempt + 1) })
    else
      match send with
      | .ok mid _purl =>
        (some { e1 with status := .SENT, sentAt := some now,
                        messageId := some mid },
         { ack := .completed true
           transportCalled := true
           rescheduledAttempt := none })
      | .failed err =>
        let errMsg := sendFailureMessage err
        let rc := e1.retryCount + 1
        let mr := if e1.maxRetries = 0 then defaultMaxRetries else e1.maxRetries
        if mr ≤ rc then
          (some { e1 with status := .FAILED, errorMessage := some errMsg,
                          retryCount := rc },
           { ack := .completed false
             transportCalled := true
             rescheduledAttempt := none })
        else
          (some { e1 with status := .SCHEDULED, errorMessage := some errMsg,
                          retryCount := rc },
           { ack := .completed false
             transportCalled := true
             rescheduledAttempt := none })

/-! ## Trace semantics of one message

Events observable for a single message: a queue job being delivered to
the worker (with the rate-limit decision and transport outcome as
oracle inputs) and a user cancellation (`cancelEmail` in the
controller, which deletes the row regardless of its status).  The state
tracks the durable row and the attempt numbers of pending queue jobs;
every step also records the list of status writes it performed on the
row. -/

structure SysState where
  msg : Option Email
  jobs : List Nat
  deriving DecidableEq

inductive WorkerEvent
  | fire (attempt : Nat) (rateAllowed : Bool) (send : SendResult)
  | cancel
  deriving DecidableEq

/-- One event step; returns the new state and the `(from, to)` status
writes performed on the durable row. -/
def stepEv (dmr : Nat) (now : Int) (emailId : String) (s : SysState)
    (ev : WorkerEvent) : SysState × List (Status × Status) :=
  match ev with
  | .cancel =>
    match s.msg with
    | none => (s, [])
    | some _ => ({ msg := none, jobs := s.jobs }, [])
  | .fire a ra sr =>
    if a ∈ s.jobs then
      match s.msg with
      | none => ({ s with jobs := s.jobs.erase a }, [])
      | some e =>
        let r := processEmailJob dmr now emailId s.msg a ra sr
        let final := match r.1 with
          | some e2 => e2.status
          | none => e.status
        ({ msg := r.1
           jobs := s.jobs.erase a ++
             (match r.2.rescheduledAttempt with
              | some a2 => [a2]
              | none => []) },
         [(e.status, .PROCESSING), (.PROCESSING, final)])
    else (s, [])

/-- Run a list of events, accumulating the status writes. -/
def runEvents (dmr : Nat) (now : Int) (emailId : String) :
    SysState → List WorkerEvent → SysState × List (Status × Status)
  | s, [] => (s, [])
  | s, ev :: rest =>
    let r := stepEv dmr now emailId s ev
    let r2 := runEvents dmr now emailId r.1 rest
    (r2.1, r.2 ++ r2.2)

/-- State right after the coordinator created the row (SCHEDULED) and
enqueued the first attempt. -/
def initialState (recipient : String) (t : Int) : SysState :=
  { msg := some (mkScheduledEmail recipient t), jobs := [1] }

/-- Status transitions enumerated by the specification state machine
(deletions are not status writes and are treated separately). -/
def claimedTransitions : List (Status × Status) :=
  [(.SCHEDULED, .PROCESSING), (.PROCESSING, .RATE_LIMITED),
   (.RATE_LIMITED, .SCHEDULED), (.PROCESSING, .SENT),
   (.PROCESSING, .SCHEDULED), (.PROCESSING, .FAILED)]

/-- Status transitions the code actually performs: a rescheduled
rate-limited job is picked up directly into PROCESSING, and
RATE_LIMITED never goes back to SCHEDULED. -/
def amendedTransitions : List (Status × Status) :=
  [(.SCHEDULED, .PROCESSING), (.PROCESSING, .RATE_LIMITED),
   (.RATE_LIMITED, .PROCESSING), (.PROCESSING, .SENT),
   (.PROCESSING, .SCHEDULED), (.PROCESSING, .FAILED)]

/-! ### Trace invariants -/

/-- Reachability invariant of a single message driven by the worker and
the cancellation path: at most one queue job is pending, the durable
status is never left at PROCESSING between steps, and a terminal row
has no pending job. -/
def SysInv (s : SysState) : Prop :=
  s.jobs.length ≤ 1 ∧
  ∀ e, s.msg = some e → e.status ≠ .PROCESSING ∧
    ((e.status = .SENT ∨ e.status = .FAILED) → s.jobs = [])

theorem sysInv_initial (r : String) (t : Int) : SysInv (initialState r t) := by
  refine ⟨by simp [initialState], ?_⟩
  intro e he
  simp only [initialState, Option.some.injEq] at he
  subst he
  refine ⟨by simp [mkScheduledEmail], ?_⟩
  intro hterm
  rcases hterm with h | h <;> simp [mkScheduledEmail] at h

/-- Character of a processed job on an existing row: the final status
is one of RATE_LIMITED, SENT, SCHEDULED, FAILED, and only the
rate-limited branch reschedules a job. -/
theorem processEmailJob_some_char (dmr : Nat) (now : Int) (emailId : String)
    (e : Email) (a : Nat) (ra : Bool) (sr : SendResult) :
    ∃ e2, (processEmailJob dmr now emailId (some e) a ra sr).1 = some e2 ∧
      (e2.status = .RATE_LIMITED ∨ e2.status = .SENT ∨ e2.status = .SCHEDULED ∨
        e2.status = .FAILED) ∧
      ((e2.status = .SENT ∨ e2.status = .FAILED) →
        (processEmailJob dmr now emailId (some e) a ra sr).2.rescheduledAttempt
          = none) := by
  cases ra with
  | false =>
    refine ⟨_, rfl, Or.inl rfl, ?_⟩
    intro h
    rcases h with h | h <;> simp at h
  | true =>
    cases sr with
    | ok mid purl => exact ⟨_, rfl, Or.inr (Or.inl rfl), fun _ => rfl⟩
    | failed err =>
      simp only [processEmailJob]
      rw [if_neg (by decide : ¬ (true = false))]
      split <;> split <;>
        first
          | exact ⟨_, rfl, Or.inr (Or.inr (Or.inr rfl)), fun _ => rfl⟩
          | exact ⟨_, rfl, Or.inr (Or.inr (Or.inl rfl)), fun _ => rfl⟩

theorem stepEv_inv (dmr : Nat) (now : Int) (emailId : String) {s : SysState}
    {ev : WorkerEvent} (h : SysInv s) : SysInv (stepEv dmr now emailId s ev).1 := by
  obtain ⟨hlen, hmsg⟩ := h
  cases ev with
  | cancel =>
    cases hm : s.msg with
    | none => simp only [stepEv, hm]; exact ⟨hlen, hmsg⟩
    | some e =>
      simp only [stepEv, hm]
      exact ⟨hlen, by intro e' he'; simp at he'⟩
  | fire a ra sr =>
    by_cases hmem : a ∈ s.jobs
    · cases hm : s.msg with
      | none =>
        simp only [stepEv, hm, if_pos hmem]
        refine ⟨le_trans (List.erase_sublist a s.jobs).length_le hlen, ?_⟩
        intro e' he'
        simp at he'
      | some e =>
        simp only [stepEv, hm, if_pos hmem]
        obtain ⟨e2, he2, hst, hres⟩ := processEmailJob_some_char dmr now emailId e a ra sr
        have herase : s.jobs.erase a = [] := by
          have h1 := List.length_erase_of_mem hmem
          have h2 : (s.jobs.erase a).length = 0 := by omega
          exact List.length_eq_zero.mp h2
        constructor
        · rw [herase]
          cases hr : (processEmailJob dmr now emailId (some e) a ra sr).2.rescheduledAttempt <;>
            simp
        · intro e' he'
          simp only at he'
          rw [he2, Option.some.injEq] at he'
          subst he'
          constructor
          · rcases hst with h | h | h | h <;> rw [h] <;> decide
          · intro hterm
            rw [herase, hres hterm]
            simp
    · simp only [stepEv, if_neg hmem]
      exact ⟨hlen, hmsg⟩

theorem runEvents_inv (dmr : Nat) (now : Int) (emailId : String)
    (evs : List WorkerEvent) :
    ∀ s : SysState, SysInv s → SysInv (runEvents dmr now emailId s evs).1 := by
  induction evs with
  | nil => intro s h; simpa [runEvents] using h
  | cons ev rest ih =>
    intro s h
    simp only [runEvents]
    exact ih _ (stepEv_inv dmr now emailId h)

theorem stepEv_writes (dmr : Nat) (now : Int) (emailId : String) {s : SysState}
    {ev : WorkerEvent} (h : SysInv s) :
    ∀ p ∈ (stepEv dmr now emailId s ev).2, p.1 ≠ p.2 → p ∈ amendedTransitions := by
  obtain ⟨hlen, hmsg⟩ := h
  intro p hp hne
  cases ev with
  | cancel => cases hm : s.msg <;> simp only [stepEv, hm] at hp <;> simp at hp
  | fire a ra sr =>
    by_cases hmem : a ∈ s.jobs
    · cases hm : s.msg with
      | none => simp only [stepEv, hm, if_pos hmem] at hp; simp at hp
      | some e =>
        simp only [stepEv, hm, if_pos hmem] at hp
        obtain ⟨hnp, hterm⟩ := hmsg e hm
        obtain ⟨e2, he2, hst, hres⟩ := processEmailJob_some_char dmr now emailId e a ra sr
        rcases List.mem_cons.mp hp with rfl | hp2
        · -- the write into PROCESSING
          cases hs : e.status with
          | SCHEDULED => decide
          | RATE_LIMITED => decide
          | PROCESSING => exact absurd hs hnp
          | SENT =>
            have := hterm (Or.inl hs)
            rw [this] at hmem
            simp at hmem
          | FAILED =>
            have := hterm (Or.inr hs)
            rw [this] at hmem
            simp at hmem
        · rcases List.mem_cons.mp hp2 with rfl | hp3
          · -- the write out of PROCESSING
            simp only [he2]
            rcases hst with h | h | h | h <;> rw [h] <;> decide
          · simp at hp3
    · simp only [stepEv, if_neg hmem] at hp
      simp at hp

theorem runEvents_writes (dmr : Nat) (now : Int) (emailId : String)
    (evs : List WorkerEvent) :
    ∀ s : SysState, SysInv s →
      ∀ p ∈ (runEvents dmr now emailId s evs).2, p.1 ≠ p.2 →
        p ∈ amendedTransitions := by
  induction evs with
  | nil => intro s _ p hp; simp [runEvents] at hp
  | cons ev rest ih =>
    intro s h p hp hne
    simp only [runEvents] at hp
    rcases List.mem_append.mp hp with hp1 | hp2
    · exact stepEv_writes dmr now emailId h p hp1 hne
    · exact ih _ (stepEv_inv dmr now emailId h) p hp2 hne

theorem runEvents_msg_none (dmr : Nat) (now : Int) (emailId : String)
    (evs : List WorkerEvent) :
    ∀ s : SysState, s.msg = none → (runEvents dmr now emailId s evs).1.msg = none := by
  induction evs with
  | nil => intro s h; simpa [runEvents] using h
  | cons ev rest ih =>
    intro s h
    simp only [runEvents]
    apply ih
    cases ev with
    | cancel => simp only [stepEv, h]
    | fire a ra sr =>
      by_cases hmem : a ∈ s.jobs
      · simp only [stepEv, h, if_pos hmem]
      · simp only [stepEv, if_neg hmem]; exact h

theorem runEvents_terminal_stable (dmr : Nat) (now : Int) (emailId : String)
    (evs : List WorkerEvent) :
    ∀ (s : SysState) (e : Email), SysInv s → s.msg = some e →
      (e.status = .SENT ∨ e.status = .FAILED) →
      (runEvents dmr now emailId s evs).1.msg = none ∨
      (runEvents dmr now emailId s evs).1.msg = some e := by
  induction evs with
  | nil => intro s e _ hm _; right; simpa [runEvents] using hm
  | cons ev rest ih =>
    intro s e hInv hm hterm
    obtain ⟨hlen, hmsg⟩ := hInv
    have hjobs : s.jobs = [] := (hmsg e hm).2 hterm
    cases ev with
    | cancel =>
      left
      simp only [runEvents, stepEv, hm]
      exact runEvents_msg_none dmr now emailId rest _ rfl
    | fire a ra sr =>
      have hnm : a ∉ s.jobs := by rw [hjobs]; simp
      simp only [runEvents, stepEv, if_neg hnm]
      exact ih s e ⟨hlen, hmsg⟩ hm hterm

/-! ## Claim theorems -/

/-- Integer cast of truncated natural subtraction is the clamped
difference. -/
theorem natCast_sub_eq (a b : Nat) : ((a - b : Nat) : Int) = max 0 ((a : Int) - b) := by
  omega

/-- Claim C4: for every count, start, spacing and cap with cap at least
one, the batch planner returns exactly `count` instants and the list is
monotone non-decreasing. -/
theorem c4_planner_length_monotone (off : Int) (count : Nat) (start : Int)
    (delay cap : Nat) (sid : Option String) (hcap : 1 ≤ cap) :
    (calculateScheduledTimes off count start delay cap sid).length = count ∧
    List.Chain' (· ≤ ·) (calculateScheduledTimes off count start delay cap sid) :=
  ⟨planLoop_length off _ cap count start 0 _,
   planLoop_chain_le hcap (by omega) count start 0 _ rfl⟩

/-- Claim C4, witness: the planner output of the hour-overflow scenario
has length 4 and is non-decreasing. -/
theorem c4_planner_length_monotone_witness :
    (calculateScheduledTimes 0 4 1735729140000 30 2 (some "sender")).length = 4 ∧
    List.Chain' (· ≤ ·) (calculateScheduledTimes 0 4 1735729140000 30 2 (some "sender")) :=
  c4_planner_length_monotone 0 4 1735729140000 30 2 (some "sender") (by decide)

/-- Claim C3: for every count, start, spacing, cap at least one and
every 1-hour window aligned to the clock hour, at most `cap` of the
planned instants fall inside the window. -/
theorem c3_planner_hourly_cap (off : Int) (count : Nat) (start : Int)
    (delay cap : Nat) (sid : Option String) (w : Int)
    (hcap : 1 ≤ cap) (hw : Aligned off w) :
    (calculateScheduledTimes off count start delay cap sid).countP
        (fun x => decide (w ≤ x ∧ x < w + hourMs)) ≤ cap := by
  have hmain := @planLoop_cap_window off ((delay : Int) * 1000) cap hcap
    (by omega) w count start 0 (localHourStart off start) rfl (by omega)
  have hcong : (planLoop off ((delay : Int) * 1000) cap count start 0
        (localHourStart off start)).countP
          (fun x => decide (w ≤ x ∧ x < w + hourMs)) =
      (planLoop off ((delay : Int) * 1000) cap count start 0
        (localHourStart off start)).countP
          (fun x => decide (localHourStart off x = w)) := by
    apply List.countP_congr
    intro a _
    simp only [decide_eq_true_eq]
    exact (localHourStart_eq_iff off a w hw).symm
  unfold calculateScheduledTimes
  rw [hcong]
  split at hmain <;> omega

/-- Claim C3, witness: in the hour-overflow scenario at most 2 of the
4 instants fall into the aligned window starting 2025-01-01T10:00Z. -/
theorem c3_planner_hourly_cap_witness :
    (calculateScheduledTimes 0 4 1735729140000 30 2 (some "sender")).countP
        (fun x => decide ((1735725600000 : Int) ≤ x ∧ x < 1735725600000 + hourMs)) ≤ 2 :=
  c3_planner_hourly_cap 0 4 1735729140000 30 2 (some "sender") 1735725600000
    (by decide) (by decide)

/-- Claim C5: consecutive planned instants in the same clock hour
differ by exactly the configured spacing, and every consecutive pair is
either exactly spaced or a jump to the start of the next hour; the
hour-overflow scenario (count 4, start 2025-01-01T10:59:00Z, spacing
30 s, cap 2) yields 10:59:00, 10:59:30, 11:00:00, 11:00:30. -/
theorem c5_planner_spacing (off : Int) (count : Nat) (start : Int)
    (delay cap : Nat) (sid : Option String) (hcap : 1 ≤ cap) :
    List.Chain' (pairStep off ((delay : Int) * 1000))
      (calculateScheduledTimes off count start delay cap sid) ∧
    calculateScheduledTimes 0 4 1735729140000 30 2 (some "sender") =
      [1735729140000, 1735729170000, 1735729200000, 1735729230000] := by
  constructor
  · unfold calculateScheduledTimes
    cases count with
    | zero => simp [planLoop]
    | succ n =>
      rw [planLoop_succ_emit (by omega)]
      split
      · next hcr =>
        exact planLoop_chain_pair hcap (by omega) n start _ 0 _ rfl rfl
          (fun h => absurd h (by omega))
      · next hcr =>
        have hmono : localHourStart off start ≤
            localHourStart off (start + (delay : Int) * 1000) :=
          localHourStart_mono off (by omega)
        exact planLoop_chain_pair hcap (by omega) n start _ (0 + 1) _ rfl
          (le_antisymm hmono (not_lt.mp hcr)) (fun _ => rfl)
  · decide

/-- Claim C5, witness: the pairwise spacing property and the
hour-overflow scenario output at the concrete inputs. -/
theorem c5_planner_spacing_witness :
    List.Chain' (pairStep 0 (((30 : Nat) : Int) * 1000))
      (calculateScheduledTimes 0 4 1735729140000 30 2 (some "sender")) ∧
    calculateScheduledTimes 0 4 1735729140000 30 2 (some "sender") =
      [1735729140000, 1735729170000, 1735729200000, 1735729230000] :=
  c5_planner_spacing 0 4 1735729140000 30 2 (some "sender") (by decide)

/-- Claim C10: the planner output depends only on count, start, spacing
and cap; two calls differing only in the sender id return identical
lists, and the function consults no rate limiter or stored counter (it
is a pure function of these four arguments). -/
theorem c10_planner_sender_independent (off : Int) (count : Nat) (start : Int)
    (delay cap : Nat) (sid1 sid2 : Option String) :
    calculateScheduledTimes off count start delay cap sid1 =
      calculateScheduledTimes off count start delay cap sid2 := rfl

/-- Claim C8, counterexample: with a local offset of +00:30 (for
example Asia/Kolkata is +05:30), `resetTime` as computed by the source
from local calendar components is not the start of the next UTC hour:
at now = 1800000 it returns 5400000 while the next UTC hour starts at
3600000. -/
theorem c8_resetTime_counterexample :
    (checkRateLimit 1800000 1800000 100 50 none 0 0).resetTime ≠
      utcHourStart 1800000 + hourMs := by decide

/-- Claim C8, amended: `remaining` is the clamped minimum of the global
and (when a sender id is given) sender budgets, `allowed` holds iff
`remaining` is positive, `resetTime` is the start of the next local
clock hour (which is the next UTC hour start exactly when the local
offset is a whole number of hours), and `nextAvailableSlot` is `now`
when allowed and `resetTime` otherwise. -/
theorem c8_amended_check (off now : Int) (maxGlobal maxPerSender : Nat)
    (sid : Option String) (g s : Nat) :
    ((checkRateLimit off now maxGlobal maxPerSender sid g s).remaining : Int) =
        max 0 (min ((maxGlobal : Int) - g)
          (if sid.isSome then (maxPerSender : Int) - s else (maxGlobal : Int))) ∧
    ((checkRateLimit off now maxGlobal maxPerSender sid g s).allowed = true ↔
        0 < (checkRateLimit off now maxGlobal maxPerSender sid g s).remaining) ∧
    (checkRateLimit off now maxGlobal maxPerSender sid g s).resetTime =
        localHourStart off now + hourMs ∧
    (off % hourMs = 0 →
      (checkRateLimit off now maxGlobal maxPerSender sid g s).resetTime =
        utcHourStart now + hourMs) ∧
    (checkRateLimit off now maxGlobal maxPerSender sid g s).nextAvailableSlot =
        (if 0 < (checkRateLimit off now maxGlobal maxPerSender sid g s).remaining
         then now
         else (checkRateLimit off now maxGlobal maxPerSender sid g s).resetTime) := by
  refine ⟨?_, ?_, rfl, ?_, rfl⟩
  · cases sid <;>
      simp only [checkRateLimit, Option.isSome, Nat.cast_min, natCast_sub_eq,
        if_true, if_false, Bool.false_eq_true] <;>
      omega
  · cases sid <;> simp [checkRateLimit]
  · intro hoff
    simp only [checkRateLimit, getNextHourStart, getCurrentHourStart, localHourStart,
      utcHourStart]
    unfold hourMs at hoff ⊢
    omega

/-- Claim C8, witness: the amended characterization at a concrete
whole-hour offset, sender id present, and counters 20 and 49 against
limits 100 and 50, with the offset hypothesis discharged. -/
theorem c8_amended_check_witness :
    ((checkRateLimit 0 5400000 100 50 (some "sid") 20 49).remaining : Int) =
        max 0 (min (((100 : Nat) : Int) - ((20 : Nat) : Int))
          (if (some "sid" : Option String).isSome
           then ((50 : Nat) : Int) - ((49 : Nat) : Int)
           else ((100 : Nat) : Int))) ∧
    ((checkRateLimit 0 5400000 100 50 (some "sid") 20 49).allowed = true ↔
        0 < (checkRateLimit 0 5400000 100 50 (some "sid") 20 49).remaining) ∧
    (checkRateLimit 0 5400000 100 50 (some "sid") 20 49).resetTime =
        localHourStart 0 5400000 + hourMs ∧
    (checkRateLimit 0 5400000 100 50 (some "sid") 20 49).resetTime =
        utcHourStart 5400000 + hourMs ∧
    (checkRateLimit 0 5400000 100 50 (some "sid") 20 49).nextAvailableSlot =
        (if 0 < (checkRateLimit 0 5400000 100 50 (some "sid") 20 49).remaining
         then 5400000
         else (checkRateLimit 0 5400000 100 50 (some "sid") 20 49).resetTime) := by
  have h := c8_amended_check 0 5400000 100 50 (some "sid") 20 49
  exact ⟨h.1, h.2.1, h.2.2.1, h.2.2.2.1 (by decide), h.2.2.2.2⟩

/-- Claim C6: if the bulk enqueue fails after the batch rows were
persisted, every message of the batch is marked FAILED with the thrown
message (or the fixed fallback text), the failure is surfaced to the
caller, and no message of the batch remains SCHEDULED. -/
theorem c6_enqueue_failure_marks_failed (recipients : List String) (times : List Int)
    (err : Option String) :
    (∀ e ∈ (scheduleBatchStep recipients times (.failed err)).1,
        e.status = .FAILED ∧
        e.errorMessage = some (err.getD defaultQueueErrorMessage) ∧
        e.status ≠ .SCHEDULED) ∧
    (scheduleBatchStep recipients times (.failed err)).2 =
      some (err.getD defaultQueueErrorMessage) := by
  constructor
  · intro e he
    simp only [scheduleBatchStep, markBatchFailed, List.mem_map] at he
    obtain ⟨x, _, rfl⟩ := he
    exact ⟨rfl, rfl, by simp⟩
  · rfl

/-- Claim C6, witness: the enqueue-failure recovery at a one-element
batch with a non-`Error` thrown value, evaluated on the single row of
the batch. -/
theorem c6_enqueue_failure_marks_failed_witness :
    (({ mkScheduledEmail "a@x" 0 with
         status := Status.FAILED,
         errorMessage := some defaultQueueErrorMessage } : Email).status = .FAILED ∧
     ({ mkScheduledEmail "a@x" 0 with
         status := Status.FAILED,
         errorMessage := some defaultQueueErrorMessage } : Email).errorMessage =
       some ((none : Option String).getD defaultQueueErrorMessage) ∧
     ({ mkScheduledEmail "a@x" 0 with
         status := Status.FAILED,
         errorMessage := some defaultQueueErrorMessage } : Email).status ≠ .SCHEDULED) ∧
    (scheduleBatchStep ["a@x"] [0] (.failed none)).2 =
      some ((none : Option String).getD defaultQueueErrorMessage) :=
  ⟨(c6_enqueue_failure_marks_failed ["a@x"] [0] none).1
      { mkScheduledEmail "a@x" 0 with
         status := Status.FAILED,
         errorMessage := some defaultQueueErrorMessage } (by decide),
   (c6_enqueue_failure_marks_failed ["a@x"] [0] none).2⟩

/-- Claim C1, evaluated at the failing input: on a transport failure
with retryCount 0 and maxRetries 3 the worker does set the row back to
SCHEDULED with the error and retryCount 1, but the handler RETURNS a
completed result (`success: false`) instead of rethrowing, so the queue
records a successful attempt, re-delivers nothing, and no job remains
pending for the message: it can never reach SENT with retryCount 2. -/
theorem c1_transport_failure_completes_attempt :
    ((processEmailJob 3 0 "msg-1" (some (mkScheduledEmail "user@example.com" 0)) 1 true
        (.failed "connection refused")).1.map Email.status = some .SCHEDULED) ∧
    ((processEmailJob 3 0 "msg-1" (some (mkScheduledEmail "user@example.com" 0)) 1 true
        (.failed "connection refused")).1.map Email.retryCount = some 1) ∧
    ((processEmailJob 3 0 "msg-1" (some (mkScheduledEmail "user@example.com" 0)) 1 true
        (.failed "connection refused")).1.map Email.errorMessage =
      some (some "connection refused")) ∧
    ((processEmailJob 3 0 "msg-1" (some (mkScheduledEmail "user@example.com" 0)) 1 true
        (.failed "connection refused")).2.ack = .completed false) ∧
    ((processEmailJob 3 0 "msg-1" (some (mkScheduledEmail "user@example.com" 0)) 1 true
        (.failed "connection refused")).2.rescheduledAttempt = none) ∧
    (runEvents 3 0 "msg-1" (initialState "user@example.com" 0)
        [.fire 1 true (.failed "connection refused")]).1.jobs = [] ∧
    ((runEvents 3 0 "msg-1" (initialState "user@example.com" 0)
        [.fire 1 true (.failed "connection refused")]).1.msg.map Email.status =
      some .SCHEDULED) := by
  exact ⟨rfl, rfl, by decide, rfl, rfl, by decide, by decide⟩

/-- Claim C7, evaluated at the failing input: when the referenced row
no longer exists, the first update rejects (P2025) and the catch block
rejects again, so the handler reports the attempt as FAILED to the
queue (errored) instead of acknowledging it as completed; the transport
is never called and no state is written. -/
theorem c7_missing_message_rejects :
    (processEmailJob 3 0 "msg-1" none 1 true (.ok "provider-id" none) =
      (none, { ack := .errored "Record to update not found",
               transportCalled := false, rescheduledAttempt := none })) ∧
    ∀ (dmr : Nat) (now : Int) (emailId : String) (a : Nat) (ra : Bool) (sr : SendResult),
      (processEmailJob dmr now emailId none a ra sr).2.transportCalled = false ∧
      (processEmailJob dmr now emailId none a ra sr).1 = none :=
  ⟨rfl, fun _ _ _ _ _ _ => ⟨rfl, rfl⟩⟩

/-- Claim C2, counterexample: the trace that rate-limits the first
attempt and then delivers the rescheduled attempt performs the status
write RATE_LIMITED to PROCESSING, which is not among the enumerated
transitions, so not every status change is enumerated. -/
theorem c2_transitions_counterexample :
    ¬ (∀ (dmr : Nat) (now : Int) (emailId recipient : String) (t : Int)
          (evs : List WorkerEvent),
        ∀ p ∈ (runEvents dmr now emailId (initialState recipient t) evs).2,
          p.1 ≠ p.2 → p ∈ claimedTransitions) := by
  intro h
  exact absurd
    (h 3 0 "m" "a@x" 0 [.fire 1 false (.ok "x" none), .fire 2 true (.ok "x" none)]
      (.RATE_LIMITED, .PROCESSING) (by decide) (by decide))
    (by decide)

/-- Claim C2, amended: every status change along any trace from the
freshly scheduled state is one of SCHEDULED to PROCESSING, RATE_LIMITED
to PROCESSING, PROCESSING to RATE_LIMITED, PROCESSING to SENT,
PROCESSING to SCHEDULED, PROCESSING to FAILED (a rescheduled
rate-limited message is picked up directly into PROCESSING and
RATE_LIMITED to SCHEDULED never occurs); SENT and FAILED are terminal:
once the row is observed in a terminal status, any further events leave
it either deleted or unchanged. -/
theorem c2_amended_transitions (dmr : Nat) (now : Int) (emailId recipient : String)
    (t : Int) (evs evs2 : List WorkerEvent) :
    (∀ p ∈ (runEvents dmr now emailId (initialState recipient t) evs).2,
        p.1 ≠ p.2 → p ∈ amendedTransitions) ∧
    (∀ e, (runEvents dmr now emailId (initialState recipient t) evs).1.msg = some e →
        e.status = .SENT ∨ e.status = .FAILED →
        (runEvents dmr now emailId
            ((runEvents dmr now emailId (initialState recipient t) evs).1) evs2).1.msg
            = none ∨
        (runEvents dmr now emailId
            ((runEvents dmr now emailId (initialState recipient t) evs).1) evs2).1.msg
            = some e) := by
  constructor
  · exact runEvents_writes dmr now emailId evs _ (sysInv_initial recipient t)
  · intro e hm hterm
    exact runEvents_terminal_stable dmr now emailId evs2 _ e
      (runEvents_inv dmr now emailId evs _ (sysInv_initial recipient t)) hm hterm

/-- Claim C2 amended, witness: the amended statement at the concrete
trace that delivers the job successfully and then cancels, evaluated on
the first status write and on the resulting SENT row. -/
theorem c2_amended_transitions_witness :
    (Status.SCHEDULED, Status.PROCESSING) ∈ amendedTransitions ∧
    ((runEvents 3 0 "m"
        ((runEvents 3 0 "m" (initialState "a@x" 0)
          [.fire 1 true (.ok "x" none)]).1) [.cancel]).1.msg = none ∨
     (runEvents 3 0 "m"
        ((runEvents 3 0 "m" (initialState "a@x" 0)
          [.fire 1 true (.ok "x" none)]).1) [.cancel]).1.msg =
       some { mkScheduledEmail "a@x" 0 with
               status := Status.SENT,
               sentAt := some 0,
               messageId := some "x",
               jobId := some (generateJobId "m" 1) }) :=
  ⟨(c2_amended_transitions 3 0 "m" "a@x" 0 [.fire 1 true (.ok "x" none)] [.cancel]).1
      (Status.SCHEDULED, Status.PROCESSING) (by decide) (by decide),
   (c2_amended_transitions 3 0 "m" "a@x" 0 [.fire 1 true (.ok "x" none)] [.cancel]).2
      { mkScheduledEmail "a@x" 0 with
         status := Status.SENT,
         sentAt := some 0,
         messageId := some "x",
         jobId := some (generateJobId "m" 1) } (by decide) (Or.inl rfl)⟩

/-- Claim C9, counterexample: the coordinator enqueue-failure recovery
marks a fresh message FAILED with retryCount 0 and maxRetries 3, which
was not explicitly cancelled, so FAILED does not imply retryCount at
least maxRetries. -/
theorem c9_failed_invariant_counterexample :
    ¬ (∀ e ∈ markBatchFailed none [mkScheduledEmail "a@x" 0],
        e.status = .FAILED → e.errorMessage ≠ none ∧ e.maxRetries ≤ e.retryCount) := by
  decide

/-- Claim C9, amended: a row the worker writes to FAILED always has a
non-null error message and retryCount at least its maxRetries; a row
the coordinator marks FAILED after an enqueue failure has a non-null
error message but keeps its retryCount untouched; cancellation in the
current source deletes the row and writes no FAILED status at all. -/
theorem c9_amended_failed_invariant :
    (∀ (dmr : Nat) (now : Int) (emailId : String) (db : Option Email) (a : Nat)
        (ra : Bool) (sr : SendResult) (e2 : Email),
      (processEmailJob dmr now emailId db a ra sr).1 = some e2 →
        e2.status = .FAILED → e2.errorMessage ≠ none ∧ e2.maxRetries ≤ e2.retryCount) ∧
    (∀ (err : Option String) (batch : List Email) (e2 : Email),
      e2 ∈ markBatchFailed err batch → e2.status = .FAILED ∧ e2.errorMessage ≠ none) := by
  constructor
  · intro dmr now emailId db a ra sr e2 h1 h2
    cases db with
    | none => simp [processEmailJob] at h1
    | some e =>
      cases ra with
      | false =>
        simp only [processEmailJob, if_true, Option.some.injEq] at h1
        subst h1
        simp at h2
      | true =>
        cases sr with
        | ok mid purl =>
          simp only [processEmailJob] at h1
          rw [if_neg (by decide : ¬ (true = false))] at h1
          simp only [Option.some.injEq] at h1
          subst h1
          simp at h2
        | failed err2 =>
          simp only [processEmailJob] at h1
          rw [if_neg (by decide : ¬ (true = false))] at h1
          by_cases hmr : (if e.maxRetries = 0 then dmr else e.maxRetries) ≤
              e.retryCount + 1
          · rw [if_pos hmr] at h1
            simp only [Option.some.injEq] at h1
            subst h1
            refine ⟨by simp, ?_⟩
            dsimp only
            by_cases h0 : e.maxRetries = 0
            · omega
            · rw [if_neg h0] at hmr; omega
          · rw [if_neg hmr] at h1
            simp only [Option.some.injEq] at h1
            subst h1
            simp at h2
  · intro err batch e2 h
    simp only [markBatchFailed, List.mem_map] at h
    obtain ⟨x, _, rfl⟩ := h
    exact ⟨rfl, by simp⟩

/-- Claim C9 amended, witness: the worker leg at a concrete message on
its final retry, and the coordinator leg at a concrete one-element
batch, with all hypotheses discharged. -/
theorem c9_amended_failed_invariant_witness :
    (({ mkScheduledEmail "a@x" 0 with
         status := Status.FAILED,
         retryCount := 3,
         errorMessage := some "boom",
         jobId := some (generateJobId "m" 1) } : Email).errorMessage ≠ none ∧
     ({ mkScheduledEmail "a@x" 0 with
         status := Status.FAILED,
         retryCount := 3,
         errorMessage := some "boom",
         jobId := some (generateJobId "m" 1) } : Email).maxRetries ≤
       ({ mkScheduledEmail "a@x" 0 with
           status := Status.FAILED,
           retryCount := 3,
           errorMessage := some "boom",
           jobId := some (generateJobId "m" 1) } : Email).retryCount) ∧
    (({ mkScheduledEmail "a@x" 0 with
         status := Status.FAILED,
         errorMessage := some "enqueue failed" } : Email).status = .FAILED ∧
     ({ mkScheduledEmail "a@x" 0 with
         status := Status.FAILED,
         errorMessage := some "enqueue failed" } : Email).errorMessage ≠ none) :=
  ⟨c9_amended_failed_invariant.1 3 0 "m"
      (some { mkScheduledEmail "a@x" 0 with retryCount := 2 }) 1 true
      (.failed "boom")
      { mkScheduledEmail "a@x" 0 with
         status := Status.FAILED,
         retryCount := 3,
         errorMessage := some "boom",
         jobId := some (generateJobId "m" 1) } (by decide) rfl,
   c9_amended_failed_invariant.2 (some "enqueue failed") [mkScheduledEmail "a@x" 0]
      { mkScheduledEmail "a@x" 0 with
         status := Status.FAILED,
         errorMessage := some "enqueue failed" } (by decide)⟩

end EmailScheduler
